import Mathlib

/-!
Verification of the safety-constrained exercise recommendation filter of the
`health_butler` repository.  The definitions below shallowly embed the Python
code of `src/src/data_rag/simple_rag_tool.py` (risk catalog, safety filter,
fuzzy search harness) and `src/src/agents/fitness/fitness_agent.py`
(visual-warning extractor and second-pass recommendation validator).

Python strings are modelled as `List Char`; `str.lower` is modelled for the
ASCII range (all keywords, tags and patterns in the program are ASCII).  The
fuzzy scorer `rapidfuzz.fuzz.WRatio` is an external pure function of the query
and the haystack text; it is modelled as an arbitrary parameter
`scorer : Str → Str → Nat`, and `rapidfuzz.process.extract` as a stable sort
by descending score followed by truncation, which is its documented behaviour.
-/

namespace HealthButler

/-- Python strings, modelled as their character lists. -/
abbrev Str := List Char

/-- ASCII lower-casing of one character, the restriction of Python
`str.lower` to the data appearing in the program. -/
def lowerChar (c : Char) : Char :=
  if 65 ≤ c.toNat ∧ c.toNat ≤ 90 then
    Char.ofNat (c.toNat + 32)
  else
    c

/-- Python `s.lower()`. -/
def lowerStr (s : Str) : Str := s.map lowerChar

/-- Python substring test `needle in hay`. -/
def containsSub (hay needle : Str) : Bool :=
  (List.range (hay.length + 1)).any (fun i => needle.isPrefixOf (hay.drop i))

/-- ASCII whitespace, the characters removed by Python `str.strip()` and
matched by the regex class backslash-s on the inputs of this program. -/
def isSpaceChar (c : Char) : Bool :=
  c = ' ' || c = '\t' || c = '\n' || c = '\x0d' || c = '\x0b' || c = '\x0c'

/-- Python `s.strip()`. -/
def stripStr (s : Str) : Str :=
  ((s.dropWhile isSpaceChar).reverse.dropWhile isSpaceChar).reverse

theorem toNat_ofNat_valid {n : Nat} (h : n.isValidChar) : (Char.ofNat n).toNat = n := by
  unfold Char.ofNat
  rw [dif_pos h]
  rfl

theorem lowerChar_idem (c : Char) : lowerChar (lowerChar c) = lowerChar c := by
  unfold lowerChar
  by_cases h : 65 ≤ c.toNat ∧ c.toNat ≤ 90
  · rw [if_pos h]
    have hval : (Char.ofNat (c.toNat + 32)).toNat = c.toNat + 32 :=
      toNat_ofNat_valid (Or.inl (by omega))
    rw [hval, if_neg (by omega)]
  · rw [if_neg h, if_neg h]

theorem lowerStr_idem (s : Str) : lowerStr (lowerStr s) = lowerStr s := by
  unfold lowerStr
  rw [List.map_map]
  apply List.map_congr_left
  intro c _
  exact lowerChar_idem c

example : lowerStr "Knee Injury".data = "knee injury".data := by decide

example : containsSub "a fast run today".data "fast run".data = true := by decide

example : containsSub "brisk walking".data "run".data = false := by decide

/-- An exercise catalog entry: the projection of the JSON exercise dicts onto
the fields read by the safety filter (`ex.get` with its defaults: a missing
`name` or `category` is the empty string, missing `tags` or
`contraindications` the empty list). -/
structure Exercise where
  name : Str
  category : Str
  tags : List Str
  contraindications : List Str
deriving DecidableEq, Repr

/-- A `DYNAMIC_RISK_BLOCKS` entry: blocked keywords plus justification. -/
structure RiskBlock where
  blocked : List Str
  reason : Str
deriving DecidableEq, Repr

/-- `HIGH_INTENSITY_KEYWORDS` from `simple_rag_tool.py`. -/
def HIGH_INTENSITY_KEYWORDS : List Str :=
  ["sprint", "hiit", "high intensity", "fast run", "running fast",
   "burpee", "jump squat", "box jump", "plyometric",
   "max effort", "all-out", "vigorous", "intense cardio"].map String.data

/-- `MODERATE_INTENSITY_KEYWORDS` from `simple_rag_tool.py`. -/
def MODERATE_INTENSITY_KEYWORDS : List Str :=
  ["run", "jog", "running", "jump", "jumping", "skip", "skipping"].map String.data

/-- The justification strings of `DYNAMIC_RISK_BLOCKS`. -/
def friedReason : Str :=
  "High-fat/fried food digestion requires blood flow to stomach".data

def highOilReason : Str :=
  "Heavy oil content may cause discomfort during vigorous exercise".data

def highSugarReason : Str :=
  "Blood sugar spike may cause energy crash during intense exercise".data

def processedReason : Str :=
  "Processed food may cause digestive issues during intense activity".data

/-- The `DYNAMIC_RISK_BLOCKS` dict as a lookup function: recognized risk tags
map to their rule, every other key is absent (`none`). -/
def DYNAMIC_RISK_BLOCKS (risk : Str) : Option RiskBlock :=
  if risk = "fried".data then
    some ⟨HIGH_INTENSITY_KEYWORDS, friedReason⟩
  else if risk = "high_oil".data then
    some ⟨HIGH_INTENSITY_KEYWORDS, highOilReason⟩
  else if risk = "high_sugar".data then
    some ⟨HIGH_INTENSITY_KEYWORDS ++ MODERATE_INTENSITY_KEYWORDS, highSugarReason⟩
  else if risk = "processed".data then
    some ⟨HIGH_INTENSITY_KEYWORDS, processedReason⟩
  else
    none

/-- Insertion of a batch of elements into a Python `set` modelled as a
duplicate-free list (`blocked_keywords.update(...)`). -/
def setUpdate (acc ks : List Str) : List Str :=
  ks.foldl (fun a k => if k ∈ a then a else a ++ [k]) acc

/-- The `blocked_keywords` set accumulated over `dynamic_risks_lower`
(lines 216-222 of `simple_rag_tool.py`). -/
def blockedKeywords (risks : List Str) : List Str :=
  risks.foldl
    (fun acc r =>
      match DYNAMIC_RISK_BLOCKS r with
      | some b => setUpdate acc b.blocked
      | none => acc)
    []

/-- The `dynamic_warnings` justification list accumulated over
`dynamic_risks_lower` (one entry per recognized supplied tag). -/
def dynamicWarnings (risks : List Str) : List Str :=
  risks.filterMap (fun r => (DYNAMIC_RISK_BLOCKS r).map RiskBlock.reason)

/-- Python `list(set(xs))`: deduplication, modelled keeping first
occurrences. -/
def dedupList (xs : List Str) : List Str :=
  xs.foldl (fun a x => if x ∈ a then a else a ++ [x]) []

/-- The composite text an exercise is matched against in the dynamic-risk
check (lines 244-247: lowercased name, category and space-joined tags). -/
def exCompositeText (ex : Exercise) : Str :=
  lowerStr ex.name ++ [' '] ++ lowerStr ex.category
    ++ [' '] ++ lowerStr (List.intercalate [' '] ex.tags)

/-- The per-exercise safety decision of `get_safe_recommendations`
(lines 231-257): the static contraindication check runs first and the
dynamic keyword check only on exercises that passed it. -/
def isSafeExercise (activeConditions blocked : List Str) (ex : Exercise) : Bool :=
  if ex.contraindications.any (fun c => lowerStr c ∈ activeConditions) then
    false
  else
    !(blocked.any (fun k => containsSub (exCompositeText ex) k))

/-- The haystack text of one exercise in `search_exercises` (line 174). -/
def searchText (ex : Exercise) : Str :=
  lowerStr (ex.name ++ [' '] ++ ex.category ++ [' '] ++ List.intercalate [' '] ex.tags)

/-- Model of `rapidfuzz.process.extract`: score every haystack entry against
the query with the (externally defined, pure) scorer, stable-sort by
descending score, return the best `limit` entries as (score, index) pairs. -/
def processExtract (scorer : Str → Str → Nat) (query : Str)
    (space : List Str) (limit : Nat) : List (Nat × Nat) :=
  (List.insertionSort (fun a b : Nat × Nat => b.1 ≤ a.1)
    ((List.range space.length).zip (space.map (scorer query)) |>.map
      (fun p => (p.2, p.1)))).take limit

/-- `SimpleRagTool.search_exercises` (lines 165-192).  `fuzzy` models the
module flag `FUZZY_AVAILABLE`; `scorer` models `fuzz.WRatio`. -/
def search_exercises (fuzzy : Bool) (scorer : Str → Str → Nat)
    (exercises : List Exercise) (query : Str)
    (minScore : Nat) (limit : Nat) : List Exercise :=
  let q := stripStr (lowerStr query)
  if q = [] then
    exercises.take limit
  else if fuzzy then
    let space := exercises.map searchText
    let results := processExtract scorer q space (limit * 2)
    let matched := results.filterMap
      (fun r => if minScore ≤ r.1 then exercises.get? r.2 else none)
    matched.take limit
  else
    []

/-- The disclaimer string literally built at lines 277-278 of
`simple_rag_tool.py` (note: no leading warning-emoji). -/
def ragDisclaimer : Str :=
  ("Due to the recent consumption of fried/high-sugar food, "
    ++ "I\x27ve adjusted your plan to lower intensity for your safety.").data

/-- `BR001_DISCLAIMER` from `fitness_agent.py` lines 23-26, which coincides
with the section-6 disclaimer text of the specification (it starts with
U+26A0 U+FE0F followed by a space). -/
def BR001_DISCLAIMER : Str :=
  ("⚠️ Due to the recent consumption of fried/high-sugar food, "
    ++ "I\x27ve adjusted your plan to lower intensity for your safety.").data

/-- The `dynamic_adjustments` record (lines 274-279). -/
structure DynamicAdjustments where
  blocked_keywords : List Str
  reasons : List Str
  disclaimer : Str
deriving DecidableEq, Repr

/-- The result dict of `get_safe_recommendations` (lines 281-285). -/
structure SafetyResult where
  safe_exercises : List Exercise
  safety_warnings : List Str
  dynamic_adjustments : Option DynamicAdjustments
deriving DecidableEq, Repr

/-- `SimpleRagTool.get_safe_recommendations` (lines 194-285) as a pure
function of the catalog held in `self.exercises`.  The temporary swap of
`self.exercises` around the `search_exercises` call (lines 260-263) is
equivalent to searching `safe_list` directly; the stateful version below
models the swap itself. -/
def get_safe_recommendations (fuzzy : Bool) (scorer : Str → Str → Nat)
    (exercises : List Exercise) (userQuery : Str)
    (userConditions : List Str) (topK : Nat)
    (dynamicRisks : List Str) : SafetyResult :=
  let activeConditions := userConditions.map lowerStr
  let risksLower := dynamicRisks.map lowerStr
  let blocked := blockedKeywords risksLower
  let warnings := dynamicWarnings risksLower
  let safeList := exercises.filter (isSafeExercise activeConditions blocked)
  let recs := search_exercises fuzzy scorer safeList userQuery 60 topK
  let safetyWarnings := if warnings = [] then [] else dedupList warnings
  let adjustments :=
    if blocked = [] then none
    else some (DynamicAdjustments.mk blocked warnings ragDisclaimer)
  SafetyResult.mk recs safetyWarnings adjustments

/-- The mutable state of a `SimpleRagTool` instance: the `exercises` field
read and temporarily rebound by `get_safe_recommendations`, and all the
other instance fields (`data_dir`, `api_client`, `safety_protocols`,
`usda_foods`, `wger_client`), bundled abstractly since the method never
touches them. -/
structure RagToolState (β : Type) where
  exercises : List Exercise
  otherFields : β
deriving DecidableEq

/-- `get_safe_recommendations` as a state transformer, reproducing the
source's temporary rebinding of `self.exercises` to `safe_list` before the
inner `search_exercises` call and its restoration afterwards
(lines 260-263). -/
def get_safe_recommendations_state {β : Type} (fuzzy : Bool)
    (scorer : Str → Str → Nat) (st : RagToolState β) (userQuery : Str)
    (userConditions : List Str) (topK : Nat)
    (dynamicRisks : List Str) : SafetyResult × RagToolState β :=
  let activeConditions := userConditions.map lowerStr
  let risksLower := dynamicRisks.map lowerStr
  let blocked := blockedKeywords risksLower
  let warnings := dynamicWarnings risksLower
  let safeList := st.exercises.filter (isSafeExercise activeConditions blocked)
  let originalExercises := st.exercises
  let st1 : RagToolState β := { st with exercises := safeList }
  let recs := search_exercises fuzzy scorer st1.exercises userQuery 60 topK
  let st2 : RagToolState β := { st1 with exercises := originalExercises }
  let safetyWarnings := if warnings = [] then [] else dedupList warnings
  let adjustments :=
    if blocked = [] then none
    else some (DynamicAdjustments.mk blocked warnings ragDisclaimer)
  (SafetyResult.mk recs safetyWarnings adjustments, st2)

/-- A recommendation produced by the LLM and re-validated by
`FitnessAgent._validate_recommendations_against_warnings`: the projection of
the recommendation dicts onto the fields the validator reads and writes
(`rec.get("name", "")` and the four keys of the replacement dict). -/
structure Recommendation where
  name : Str
  duration_min : Int
  kcal_estimate : Int
  reason : Str
deriving DecidableEq, Repr

/-- The `high_intensity` keyword list local to the validator
(`fitness_agent.py` line 151). -/
def validatorHighIntensity : List Str :=
  ["sprint", "fast run", "hiit", "jump", "burpee", "intense", "vigorous",
   "running"].map String.data

/-- The canned low-intensity replacement built at lines 173-178. -/
def fallbackRecommendation : Recommendation :=
  Recommendation.mk "Brisk Walking".data 20 100
    "Lower intensity alternative - recent meal requires lighter activity".data

/-- The triggering-tag test of line 163: the replacement branch fires only
when `fried`, `high_oil` or `high_sugar` is among the warnings (`processed`
is absent from this test in the source). -/
def triggerTagActive (warnings : List Str) : Bool :=
  warnings.contains "fried".data || warnings.contains "high_oil".data
    || warnings.contains "high_sugar".data

/-- Whether the lowercased recommendation name contains one of the
validator's high-intensity keywords (lines 157-162). -/
def recNameHighIntensity (rec : Recommendation) : Bool :=
  validatorHighIntensity.any (fun k => containsSub (lowerStr rec.name) k)

/-- The per-recommendation replacement condition of lines 161-167: a
high-intensity keyword occurs in the name and a triggering tag is active
(the tag test does not depend on which keyword matched, so the inner loop
with its `break` reduces to this conjunction). -/
def recViolates (warnings : List Str) (rec : Recommendation) : Bool :=
  recNameHighIntensity rec && triggerTagActive warnings

/-- `FitnessAgent._validate_recommendations_against_warnings`
(lines 136-180): returns the validated list and the `was_adjusted` flag. -/
def validate_recommendations (recs : List Recommendation)
    (warnings : List Str) : List Recommendation × Bool :=
  if warnings = [] then
    (recs, false)
  else
    recs.foldl
      (fun acc rec =>
        if recViolates warnings rec then (acc.1 ++ [fallbackRecommendation], true)
        else (acc.1 ++ [rec], acc.2))
      ([], false)

/-- The replacement applied elementwise by the validator loop. -/
def replaceIfViolates (warnings : List Str) (rec : Recommendation) : Recommendation :=
  if recViolates warnings rec then fallbackRecommendation else rec

/-- Word characters of the regex word-boundary `\x5cb`, ASCII range. -/
def isWordChar (c : Char) : Bool :=
  ('a' ≤ c && c ≤ 'z') || ('A' ≤ c && c ≤ 'Z') || ('0' ≤ c && c ≤ '9') || c = '_'

/-- Word boundary holds immediately before position `i` of `hay` (start of
string, or the previous character is not a word character); together with a
literal starting in a letter this models the leading word-boundary of the
warning patterns. -/
def boundaryBefore (hay : Str) (i : Nat) : Bool :=
  match i with
  | 0 => true
  | Nat.succ j => !((hay.get? j).any isWordChar)

/-- Word boundary holds at position `j` (end of string or a non-word
character there); models the trailing word-boundary of the patterns. -/
def boundaryAfter (hay : Str) (j : Nat) : Bool :=
  match hay.get? j with
  | none => true
  | some c => !isWordChar c

/-- The literal `lit` occurs at position `i` of `hay` with word boundaries
on both sides. -/
def wordMatchAt (hay lit : Str) (i : Nat) : Bool :=
  lit.isPrefixOf (hay.drop i) && boundaryBefore hay i
    && boundaryAfter hay (i + lit.length)

/-- `re.search` of a word-bounded literal: a match at some position. -/
def wordMatch (hay lit : Str) : Bool :=
  (List.range (hay.length + 1)).any (wordMatchAt hay lit)

/-- A single warning pattern, expanded into its literal alternatives (the
optional `[-_ ]?` separator of the `high_*` patterns yields four literals);
it matches when some alternative matches with word boundaries. -/
def patternMatches (hay : Str) (alts : List Str) : Bool :=
  alts.any (wordMatch hay)

/-- `VISUAL_WARNING_PATTERNS` from `fitness_agent.py` lines 29-34: each risk
tag with its patterns, each pattern given by its literal alternatives. -/
def VISUAL_WARNING_PATTERNS : List (Str × List (List Str)) :=
  [("fried".data,
    [["fried".data], ["deep-fried".data], ["fried food".data]]),
   ("high_oil".data,
    [["high-oil".data, "high_oil".data, "high oil".data, "highoil".data],
     ["high-fat".data, "high_fat".data, "high fat".data, "highfat".data],
     ["greasy".data]]),
   ("high_sugar".data,
    [["high-sugar".data, "high_sugar".data, "high sugar".data,
      "highsugar".data],
     ["sugary".data], ["sweet".data], ["glazed".data]]),
   ("processed".data,
    [["processed".data], ["processed food".data]])]

/-- Method 1 of `_extract_visual_warnings_from_task` (lines 116-120): a tag
is collected when any of its patterns matches; the inner `break` makes the
pattern loop an any-test, and iteration order is the dict order. -/
def patternScan (taskLower : Str) : List Str :=
  (VISUAL_WARNING_PATTERNS.filter
    (fun e => e.2.any (patternMatches taskLower))).map Prod.fst

/-- The closed risk-tag vocabulary iterated at line 127. -/
def riskVocab : List Str :=
  ["fried", "high_oil", "high_sugar", "processed"].map String.data

/-- The key alternatives of the structured-list regex
`(?:warnings?|visual_warnings?)`, in the order the regex engine tries
them (greedy optional `s` first, first alternation branch first). -/
def jsonKeyAlts : List Str :=
  ["warnings", "warning", "visual_warnings", "visual_warning"].map String.data

/-- After a key has matched, the remainder must consist of optional
whitespace, `:` or `=`, optional whitespace, `[`, and a non-empty bracket
content terminated by `]`; returns the captured group. -/
def groupAfterKey (rest : Str) : Option Str :=
  let r1 := rest.dropWhile isSpaceChar
  match r1 with
  | [] => none
  | c :: r2 =>
    if c = ':' || c = '=' then
      let r3 := r2.dropWhile isSpaceChar
      match r3 with
      | '[' :: r4 =>
        let grp := r4.takeWhile (fun d => !(d == ']'))
        if grp.length = 0 then none
        else if grp.length < r4.length then some grp else none
      | _ => none
    else none

/-- Try the structured-list pattern anchored at the start of `cs`: key
alternatives in engine order, each followed by `groupAfterKey`. -/
def matchKeyAt (cs : Str) : Option Str :=
  (jsonKeyAlts.filterMap
    (fun alt =>
      if alt.isPrefixOf cs then groupAfterKey (cs.drop alt.length)
      else none)).head?

/-- `re.search` of the structured-list pattern of line 123: leftmost
position at which the pattern matches, returning the captured group. -/
def findJsonGroup : Str → Option Str
  | [] => none
  | c :: rest =>
    match matchKeyAt (c :: rest) with
    | some g => some g
    | none => findJsonGroup rest

/-- The loop of lines 127-129: append each vocabulary tag that occurs in
the captured group and is not already collected. -/
def dedupAppendFiltered (P : Str → Bool) (acc ws : List Str) : List Str :=
  ws.foldl (fun a w => if P w ∧ w ∉ a then a ++ [w] else a) acc

/-- `FitnessAgent._extract_visual_warnings_from_task` (lines 103-134). -/
def extract_visual_warnings (task : Str) : List Str :=
  let taskLower := lowerStr task
  let w1 := patternScan taskLower
  match findJsonGroup taskLower with
  | none => w1
  | some grp => dedupAppendFiltered (fun w => containsSub grp w) w1 riskVocab

/-- The tag findings of the structured-list scan alone, used to state that
the two scans are unioned. -/
def structuredTags (taskLower : Str) : List Str :=
  match findJsonGroup taskLower with
  | none => []
  | some grp => riskVocab.filter (fun w => containsSub grp w)

example :
    extract_visual_warnings "The user ate DEEP-FRIED chicken and sweets".data
      = ["fried".data] := by decide

example :
    extract_visual_warnings "Warnings: [fried, high_oil]".data
      = ["fried".data, "high_oil".data] := by decide

example :
    extract_visual_warnings "visual_warnings = [processed]".data
      = ["processed".data] := by decide

example :
    extract_visual_warnings "greasy highsugar snack".data
      = ["high_oil".data, "high_sugar".data] := by decide

example :
    extract_visual_warnings "warnings: [,] sweet".data
      = ["high_sugar".data] := by decide

example :
    extract_visual_warnings "notawarnings: [fried]".data
      = ["fried".data] := by decide

example : extract_visual_warnings "warnings: []".data = [] := by decide

example :
    validate_recommendations
      [Recommendation.mk "Fast Running".data 30 300 "Cardio".data,
       Recommendation.mk "Walking".data 30 100 "Light".data]
      ["fried".data]
    = ([fallbackRecommendation, Recommendation.mk "Walking".data 30 100 "Light".data],
       true) := by decide

example :
    validate_recommendations
      [Recommendation.mk "Sprint".data 10 150 "Speed".data]
      ["processed".data]
    = ([Recommendation.mk "Sprint".data 10 150 "Speed".data], false) := by decide

/-- Concrete fixtures used by the witness theorems. -/
def sprintRec : Recommendation := Recommendation.mk "Sprint".data 10 150 "Speed".data

def walkRec : Recommendation := Recommendation.mk "Walking".data 30 100 "Light".data

def kneeEx : Exercise :=
  Exercise.mk "Jump Rope".data "cardio".data [] ["Knee Injury".data]

def walkEx : Exercise := Exercise.mk "Brisk Walking".data "cardio".data [] []

def sprintEx : Exercise := Exercise.mk "Sprint Intervals".data "cardio".data [] []

theorem mem_setUpdate (x : Str) (ks : List Str) :
    ∀ acc : List Str, (x ∈ setUpdate acc ks ↔ x ∈ acc ∨ x ∈ ks) := by
  induction ks with
  | nil => intro acc; simp [setUpdate]
  | cons k rest ih =>
      intro acc
      have step : setUpdate acc (k :: rest)
          = setUpdate (if k ∈ acc then acc else acc ++ [k]) rest := by
        simp [setUpdate]
      rw [step, ih]
      by_cases hk : k ∈ acc
      · simp only [if_pos hk]
        constructor
        · rintro (h | h)
          · exact Or.inl h
          · exact Or.inr (List.mem_cons_of_mem k h)
        · rintro (h | h)
          · exact Or.inl h
          · rcases List.mem_cons.1 h with h | h
            · exact Or.inl (h ▸ hk)
            · exact Or.inr h
      · simp only [if_neg hk, List.mem_append, List.mem_singleton, List.mem_cons]
        tauto

theorem mem_blockedKeywords (k : Str) (risks : List Str) :
    k ∈ blockedKeywords risks ↔
      ∃ r ∈ risks, ∃ b, DYNAMIC_RISK_BLOCKS r = some b ∧ k ∈ b.blocked := by
  have general :
      ∀ (rs : List Str) (acc : List Str),
        k ∈ rs.foldl
              (fun acc r =>
                match DYNAMIC_RISK_BLOCKS r with
                | some b => setUpdate acc b.blocked
                | none => acc)
              acc
          ↔ k ∈ acc ∨ ∃ r ∈ rs, ∃ b, DYNAMIC_RISK_BLOCKS r = some b ∧ k ∈ b.blocked := by
    intro rs
    induction rs with
    | nil => intro acc; simp
    | cons r rest ih =>
        intro acc
        rw [List.foldl_cons, ih]
        rcases hb : DYNAMIC_RISK_BLOCKS r with _ | b
        · simp only [hb]
          constructor
          · rintro (h | ⟨r', hr', hx⟩)
            · exact Or.inl h
            · exact Or.inr ⟨r', List.mem_cons_of_mem r hr', hx⟩
          · rintro (h | ⟨r', hr', b', hb', hk⟩)
            · exact Or.inl h
            · rcases List.mem_cons.1 hr' with h | h
              · rw [h] at hb'
                rw [hb] at hb'
                cases hb'
              · exact Or.inr ⟨r', h, b', hb', hk⟩
        · simp only [hb, mem_setUpdate]
          constructor
          · rintro ((h | h) | ⟨r', hr', hx⟩)
            · exact Or.inl h
            · exact Or.inr ⟨r, List.mem_cons_self r rest, b, hb, h⟩
            · exact Or.inr ⟨r', List.mem_cons_of_mem r hr', hx⟩
          · rintro (h | ⟨r', hr', b', hb', hk⟩)
            · exact Or.inl (Or.inl h)
            · rcases List.mem_cons.1 hr' with h | h
              · rw [h] at hb'
                rw [hb] at hb'
                cases hb' with
                | refl => exact Or.inl (Or.inr hk)
              · exact Or.inr ⟨r', h, b', hb', hk⟩
  rw [blockedKeywords, general risks []]
  simp

theorem mem_dedupAppendFiltered (P : Str → Bool) (x : Str) (ws : List Str) :
    ∀ acc : List Str,
      x ∈ dedupAppendFiltered P acc ws ↔ x ∈ acc ∨ (x ∈ ws ∧ P x = true) := by
  induction ws with
  | nil => intro acc; simp [dedupAppendFiltered]
  | cons w rest ih =>
      intro acc
      have step : dedupAppendFiltered P acc (w :: rest)
          = dedupAppendFiltered P (if P w ∧ w ∉ acc then acc ++ [w] else acc) rest := by
        simp [dedupAppendFiltered]
      rw [step, ih]
      by_cases hcond : (P w = true) ∧ w ∉ acc
      · rw [if_pos hcond]
        simp only [List.mem_append, List.mem_singleton, List.mem_cons]
        constructor
        · rintro ((h | h) | ⟨h1, h2⟩)
          · exact Or.inl h
          · rcases h with h | h
            · exact Or.inr ⟨Or.inl h, h ▸ hcond.1⟩
            · cases h
          · exact Or.inr ⟨Or.inr h1, h2⟩
        · rintro (h | ⟨(h | h), h2⟩)
          · exact Or.inl (Or.inl h)
          · exact Or.inl (Or.inr (Or.inl h))
          · exact Or.inr ⟨h, h2⟩
      · rw [if_neg hcond]
        simp only [List.mem_cons]
        constructor
        · rintro (h | ⟨h1, h2⟩)
          · exact Or.inl h
          · exact Or.inr ⟨Or.inr h1, h2⟩
        · rintro (h | ⟨(h | h), h2⟩)
          · exact Or.inl h
          · subst h
            by_cases hw : x ∈ acc
            · exact Or.inl hw
            · exact absurd ⟨h2, hw⟩ hcond
          · exact Or.inr ⟨h, h2⟩

theorem nodup_dedupAppendFiltered (P : Str → Bool) (ws : List Str) :
    ∀ acc : List Str, acc.Nodup → (dedupAppendFiltered P acc ws).Nodup := by
  induction ws with
  | nil => intro acc h; simpa [dedupAppendFiltered] using h
  | cons w rest ih =>
      intro acc hacc
      have step : dedupAppendFiltered P acc (w :: rest)
          = dedupAppendFiltered P (if P w ∧ w ∉ acc then acc ++ [w] else acc) rest := by
        simp [dedupAppendFiltered]
      rw [step]
      apply ih
      by_cases hcond : (P w = true) ∧ w ∉ acc
      · rw [if_pos hcond]
        exact List.Nodup.append hacc (List.nodup_singleton w)
          (fun x hx hw => hcond.2 (List.mem_singleton.1 hw ▸ hx))
      · rw [if_neg hcond]
        exact hacc

theorem search_exercises_mem (fuzzy : Bool) (scorer : Str → Str → Nat)
    (exercises : List Exercise) (query : Str) (minScore limit : Nat)
    (e : Exercise) (h : e ∈ search_exercises fuzzy scorer exercises query minScore limit) :
    e ∈ exercises := by
  unfold search_exercises at h
  by_cases hq : stripStr (lowerStr query) = []
  · rw [if_pos hq] at h
    exact List.take_subset limit exercises h
  · rw [if_neg hq] at h
    by_cases hf : fuzzy = true
    · rw [if_pos hf] at h
      have h2 := List.take_subset limit _ h
      rcases List.mem_filterMap.1 h2 with ⟨r, _, hr⟩
      by_cases hs : minScore ≤ r.1
      · rw [if_pos hs] at hr
        exact List.get?_mem hr
      · rw [if_neg hs] at hr
        cases hr
    · rw [if_neg hf] at h
      cases h

theorem search_exercises_length (fuzzy : Bool) (scorer : Str → Str → Nat)
    (exercises : List Exercise) (query : Str) (minScore limit : Nat) :
    (search_exercises fuzzy scorer exercises query minScore limit).length ≤ limit := by
  unfold search_exercises
  by_cases hq : stripStr (lowerStr query) = []
  · rw [if_pos hq]
    exact List.length_take_le limit exercises
  · rw [if_neg hq]
    by_cases hf : fuzzy = true
    · rw [if_pos hf]
      exact List.length_take_le limit _
    · rw [if_neg hf]
      simp

theorem validate_foldl_characterization (warnings : List Str)
    (recs : List Recommendation) :
    ∀ acc : List Recommendation × Bool,
      recs.foldl
        (fun acc rec =>
          if recViolates warnings rec then (acc.1 ++ [fallbackRecommendation], true)
          else (acc.1 ++ [rec], acc.2))
        acc
      = (acc.1 ++ recs.map (replaceIfViolates warnings),
         acc.2 || recs.any (recViolates warnings)) := by
  induction recs with
  | nil => intro acc; simp
  | cons rec rest ih =>
      intro acc
      rw [List.foldl_cons, ih]
      by_cases h : recViolates warnings rec = true
      · simp [h, replaceIfViolates]
      · have h' : recViolates warnings rec = false := by
          cases hb : recViolates warnings rec
          · rfl
          · exact absurd hb h
        simp [h', replaceIfViolates]

theorem validate_eq_map_any (recs : List Recommendation) (warnings : List Str)
    (h : warnings ≠ []) :
    validate_recommendations recs warnings
      = (recs.map (replaceIfViolates warnings), recs.any (recViolates warnings)) := by
  unfold validate_recommendations
  rw [if_neg h, validate_foldl_characterization]
  simp

theorem recViolates_replaceIfViolates (warnings : List Str) (rec : Recommendation) :
    recViolates warnings (replaceIfViolates warnings rec) = false := by
  have hfall : recNameHighIntensity fallbackRecommendation = false := by decide
  unfold replaceIfViolates
  by_cases h : recViolates warnings rec = true
  · rw [if_pos h]
    unfold recViolates
    rw [hfall]
    rfl
  · rw [if_neg h]
    cases hb : recViolates warnings rec
    · rfl
    · exact absurd hb h

theorem isSafeExercise_false_iff (active blocked : List Str) (ex : Exercise) :
    isSafeExercise active blocked ex = false ↔
      ex.contraindications.any (fun c => lowerStr c ∈ active) = true
      ∨ blocked.any (fun k => containsSub (exCompositeText ex) k) = true := by
  unfold isSafeExercise
  by_cases h : ex.contraindications.any (fun c => lowerStr c ∈ active) = true
  · simp [h]
  · simp [h]

/-- C1 (static supremacy): an exercise whose contraindications set intersects
the user's static conditions case-insensitively is never contained in the
`safe_exercises` of `get_safe_recommendations`, for every query, result
limit, scorer, fuzzy-availability and content of `dynamic_risks`; in the
embedded definition `isSafeExercise` the static check is evaluated first and
the dynamic-risk check only on exercises that passed it. -/
theorem static_supremacy (fuzzy : Bool) (scorer : Str → Str → Nat)
    (catalog : List Exercise) (q : Str) (conds : List Str) (topK : Nat)
    (risks : List Str) (ex : Exercise)
    (h : ∃ c ∈ ex.contraindications, lowerStr c ∈ conds.map lowerStr) :
    ex ∉ (get_safe_recommendations fuzzy scorer catalog q conds topK
      risks).safe_exercises := by
  intro hmem
  simp only [get_safe_recommendations] at hmem
  have h1 := search_exercises_mem _ _ _ _ _ _ _ hmem
  have h2 := (List.mem_filter.1 h1).2
  rcases h with ⟨c, hc, hcl⟩
  have hany : (ex.contraindications.any
      (fun c => lowerStr c ∈ conds.map lowerStr)) = true :=
    List.any_eq_true.2 ⟨c, hc, by simpa using hcl⟩
  unfold isSafeExercise at h2
  rw [if_pos hany] at h2
  cases h2

theorem static_supremacy_witness :
    kneeEx ∉ (get_safe_recommendations true (fun _ _ => 100) [kneeEx]
      "jump".data ["knee injury".data] 5 ["fried".data]).safe_exercises :=
  static_supremacy true (fun _ _ => 100) [kneeEx] "jump".data
    ["knee injury".data] 5 ["fried".data] kneeEx
    ⟨"Knee Injury".data, by decide, by decide⟩

/-- C6 (no silent drop): the validated list returned by
`_validate_recommendations_against_warnings` always has exactly the length
of the input list, for every recommendation list and every warning set —
violators are replaced in place, never removed. -/
theorem validator_preserves_length (recs : List Recommendation)
    (ws : List Str) :
    ((validate_recommendations recs ws).1).length = recs.length := by
  by_cases h : ws = []
  · subst h
    simp [validate_recommendations]
  · rw [validate_eq_map_any recs ws h]
    simp

/-- C9 (side-effect freedom): the state transformer modelling
`get_safe_recommendations`, which temporarily rebinds `self.exercises` to
the safe sublist around the inner search and restores it afterwards, returns
the tool state unchanged — the stored catalog and every other stored field
equal their values before the call — and its result equals the pure
function of the catalog snapshot. -/
theorem filter_call_frame {β : Type} (fuzzy : Bool)
    (scorer : Str → Str → Nat) (st : RagToolState β) (q : Str)
    (conds : List Str) (topK : Nat) (risks : List Str) :
    (get_safe_recommendations_state fuzzy scorer st q conds topK risks).2 = st
    ∧ (get_safe_recommendations_state fuzzy scorer st q conds topK risks).1
        = get_safe_recommendations fuzzy scorer st.exercises q conds topK risks := by
  cases st
  exact ⟨rfl, rfl⟩

theorem isSafeExercise_true_iff (active blocked : List Str) (ex : Exercise) :
    isSafeExercise active blocked ex = true ↔
      ex.contraindications.any (fun c => lowerStr c ∈ active) = false
      ∧ blocked.any (fun k => containsSub (exCompositeText ex) k) = false := by
  unfold isSafeExercise
  by_cases h : ex.contraindications.any (fun c => lowerStr c ∈ active) = true
  · simp [h]
  · simp [h]

/-- C3 (dynamic union): membership in the blocked-keyword set computed for a
collection of risk tags is exactly membership in some recognized supplied
tag's blocked list (a union); the set is invariant under permutation of the
tags; for the pair fried/high_sugar it is the union of the two singleton
sets; unrecognized tags contribute no keywords and cause no error; and an
exercise keyword-blocked under either of fried/high_sugar alone is blocked
under the pair. -/
theorem blocked_union (risks risks' : List Str) :
    (∀ k, k ∈ blockedKeywords risks ↔
        ∃ r ∈ risks, ∃ b, DYNAMIC_RISK_BLOCKS r = some b ∧ k ∈ b.blocked)
    ∧ (risks.Perm risks' →
        ∀ k, k ∈ blockedKeywords risks ↔ k ∈ blockedKeywords risks')
    ∧ (∀ k, k ∈ blockedKeywords ["fried".data, "high_sugar".data] ↔
        (k ∈ blockedKeywords ["fried".data]
          ∨ k ∈ blockedKeywords ["high_sugar".data]))
    ∧ (∀ r, DYNAMIC_RISK_BLOCKS r = none →
        ∀ k, k ∈ blockedKeywords (risks ++ [r]) ↔ k ∈ blockedKeywords risks)
    ∧ (∀ ex : Exercise,
        ((blockedKeywords ["fried".data]).any
            (fun k => containsSub (exCompositeText ex) k) = true
          ∨ (blockedKeywords ["high_sugar".data]).any
            (fun k => containsSub (exCompositeText ex) k) = true) →
        (blockedKeywords ["fried".data, "high_sugar".data]).any
            (fun k => containsSub (exCompositeText ex) k) = true) := by
  have pair : ∀ k, k ∈ blockedKeywords ["fried".data, "high_sugar".data] ↔
      (k ∈ blockedKeywords ["fried".data]
        ∨ k ∈ blockedKeywords ["high_sugar".data]) := by
    intro k
    rw [mem_blockedKeywords, mem_blockedKeywords, mem_blockedKeywords]
    constructor
    · rintro ⟨r, hr, hrest⟩
      rcases List.mem_cons.1 hr with h | h
      · subst h
        exact Or.inl ⟨_, List.mem_singleton.2 rfl, hrest⟩
      · have h2 := List.mem_singleton.1 h
        subst h2
        exact Or.inr ⟨_, List.mem_singleton.2 rfl, hrest⟩
    · rintro (⟨r, hr, hrest⟩ | ⟨r, hr, hrest⟩)
      · have h2 := List.mem_singleton.1 hr
        subst h2
        exact ⟨_, List.mem_cons_self _ _, hrest⟩
      · have h2 := List.mem_singleton.1 hr
        subst h2
        exact ⟨_, List.mem_cons_of_mem _ (List.mem_singleton.2 rfl), hrest⟩
  refine ⟨fun k => mem_blockedKeywords k risks, ?_, pair, ?_, ?_⟩
  · intro hperm k
    rw [mem_blockedKeywords, mem_blockedKeywords]
    constructor
    · rintro ⟨r, hr, hrest⟩
      exact ⟨r, hperm.mem_iff.1 hr, hrest⟩
    · rintro ⟨r, hr, hrest⟩
      exact ⟨r, hperm.mem_iff.2 hr, hrest⟩
  · intro r0 hnone k
    rw [mem_blockedKeywords, mem_blockedKeywords]
    constructor
    · rintro ⟨r, hr, b, hb, hkb⟩
      rcases List.mem_append.1 hr with h | h
      · exact ⟨r, h, b, hb, hkb⟩
      · have h2 := List.mem_singleton.1 h
        subst h2
        rw [hnone] at hb
        cases hb
    · rintro ⟨r, hr, b, hb, hkb⟩
      exact ⟨r, List.mem_append.2 (Or.inl hr), b, hb, hkb⟩
  · intro ex h
    rcases h with h | h
    · rcases List.any_eq_true.1 h with ⟨k, hk, hc⟩
      exact List.any_eq_true.2 ⟨k, (pair k).2 (Or.inl hk), hc⟩
    · rcases List.any_eq_true.1 h with ⟨k, hk, hc⟩
      exact List.any_eq_true.2 ⟨k, (pair k).2 (Or.inr hk), hc⟩

theorem blocked_union_witness :
    "run".data ∈ blockedKeywords ["high_sugar".data, "fried".data] := by
  have h := (blocked_union ["fried".data, "high_sugar".data]
    ["high_sugar".data, "fried".data]).2.1 (by decide) "run".data
  exact h.mp (by decide)

/-- C10 (risk monotonicity): enlarging the set of dynamic risk tags only
enlarges the blocked-keyword set, and consequently, for fixed static
conditions and a fixed catalog, every exercise excluded from the pre-search
safe subset under the smaller risk set is also excluded under the larger
one. -/
theorem risk_monotonicity (risks risks' : List Str)
    (hsub : ∀ r ∈ risks, r ∈ risks') :
    (∀ k ∈ blockedKeywords (risks.map lowerStr),
        k ∈ blockedKeywords (risks'.map lowerStr))
    ∧ (∀ (conds : List Str) (catalog : List Exercise) (ex : Exercise),
        ex ∈ catalog →
        ex ∉ catalog.filter
          (isSafeExercise (conds.map lowerStr) (blockedKeywords (risks.map lowerStr))) →
        ex ∉ catalog.filter
          (isSafeExercise (conds.map lowerStr) (blockedKeywords (risks'.map lowerStr)))) := by
  have hsub2 : ∀ r ∈ risks.map lowerStr, r ∈ risks'.map lowerStr := by
    intro r hr
    rcases List.mem_map.1 hr with ⟨x, hx, rfl⟩
    exact List.mem_map.2 ⟨x, hsub x hx, rfl⟩
  have hkey : ∀ k ∈ blockedKeywords (risks.map lowerStr),
      k ∈ blockedKeywords (risks'.map lowerStr) := by
    intro k hk
    rcases (mem_blockedKeywords k _).1 hk with ⟨r, hr, hrest⟩
    exact (mem_blockedKeywords k _).2 ⟨r, hsub2 r hr, hrest⟩
  refine ⟨hkey, ?_⟩
  intro conds catalog ex hex hnot hmem'
  apply hnot
  have hsafe' := (List.mem_filter.1 hmem').2
  rcases (isSafeExercise_true_iff _ _ ex).1 hsafe' with ⟨hstat, hdyn⟩
  have hdynSmall : (blockedKeywords (risks.map lowerStr)).any
      (fun k => containsSub (exCompositeText ex) k) = false := by
    cases hb : (blockedKeywords (risks.map lowerStr)).any
        (fun k => containsSub (exCompositeText ex) k)
    · rfl
    · rcases List.any_eq_true.1 hb with ⟨k, hk, hc⟩
      have : (blockedKeywords (risks'.map lowerStr)).any
          (fun k => containsSub (exCompositeText ex) k) = true :=
        List.any_eq_true.2 ⟨k, hkey k hk, hc⟩
      rw [this] at hdyn
      cases hdyn
  exact List.mem_filter.2 ⟨hex, (isSafeExercise_true_iff _ _ ex).2 ⟨hstat, hdynSmall⟩⟩

theorem risk_monotonicity_witness :
    "sprint".data ∈ blockedKeywords (["fried".data, "high_sugar".data].map lowerStr)
    ∧ sprintEx ∉ [sprintEx].filter
        (isSafeExercise (([] : List Str).map lowerStr)
          (blockedKeywords (["fried".data, "high_sugar".data].map lowerStr))) := by
  have h := risk_monotonicity ["fried".data] ["fried".data, "high_sugar".data]
    (by decide)
  exact ⟨h.1 "sprint".data (by decide),
    h.2 [] [sprintEx] sprintEx (by decide) (by decide)⟩

/-- C7 (result cap): the `safe_exercises` list of `get_safe_recommendations`
never exceeds `top_k` entries, and every entry belongs to the catalog and
passes both the static and the dynamic safety check — the result is never
padded with unsafe entries. -/
theorem result_cap (fuzzy : Bool) (scorer : Str → Str → Nat)
    (catalog : List Exercise) (q : Str) (conds : List Str) (topK : Nat)
    (risks : List Str) :
    ((get_safe_recommendations fuzzy scorer catalog q conds topK
        risks).safe_exercises.length ≤ topK)
    ∧ (∀ e ∈ (get_safe_recommendations fuzzy scorer catalog q conds topK
          risks).safe_exercises,
        e ∈ catalog
        ∧ isSafeExercise (conds.map lowerStr)
            (blockedKeywords (risks.map lowerStr)) e = true) := by
  constructor
  · simp only [get_safe_recommendations]
    exact search_exercises_length _ _ _ _ _ _
  · intro e he
    simp only [get_safe_recommendations] at he
    have h1 := search_exercises_mem _ _ _ _ _ _ _ he
    exact ⟨(List.mem_filter.1 h1).1, (List.mem_filter.1 h1).2⟩

theorem result_cap_witness :
    ((get_safe_recommendations false (fun _ _ => 0) [walkEx] [] [] 1
        []).safe_exercises.length ≤ 1)
    ∧ (walkEx ∈ [walkEx]
        ∧ isSafeExercise (([] : List Str).map lowerStr)
            (blockedKeywords (([] : List Str).map lowerStr)) walkEx = true) :=
  ⟨(result_cap false (fun _ _ => 0) [walkEx] [] [] 1 []).1,
   (result_cap false (fun _ _ => 0) [walkEx] [] [] 1 []).2 walkEx (by decide)⟩

/-- C4 (adjustments record), corrected: `dynamic_adjustments` is `none`
exactly when the computed blocked-keyword set is empty, and otherwise is the
record of the blocked-keyword set, the justification list and the fixed
disclaimer string of `simple_rag_tool.py` lines 277-278 — which is the
section-6 disclaimer text WITHOUT its leading warning-emoji prefix. -/
theorem adjustments_record (fuzzy : Bool) (scorer : Str → Str → Nat)
    (catalog : List Exercise) (q : Str) (conds : List Str) (topK : Nat)
    (risks : List Str) :
    ((get_safe_recommendations fuzzy scorer catalog q conds topK
        risks).dynamic_adjustments = none
      ↔ blockedKeywords (risks.map lowerStr) = [])
    ∧ (blockedKeywords (risks.map lowerStr) ≠ [] →
        (get_safe_recommendations fuzzy scorer catalog q conds topK
          risks).dynamic_adjustments
        = some (DynamicAdjustments.mk (blockedKeywords (risks.map lowerStr))
            (dynamicWarnings (risks.map lowerStr)) ragDisclaimer)) := by
  simp only [get_safe_recommendations]
  by_cases h : blockedKeywords (risks.map lowerStr) = []
  · simp [h]
  · simp [h]

theorem adjustments_record_witness :
    (get_safe_recommendations false (fun _ _ => 0) [] [] [] 5
      ["fried".data]).dynamic_adjustments
    = some (DynamicAdjustments.mk (blockedKeywords (["fried".data].map lowerStr))
        (dynamicWarnings (["fried".data].map lowerStr)) ragDisclaimer) :=
  (adjustments_record false (fun _ _ => 0) [] [] [] 5 ["fried".data]).2
    (by decide)

theorem adjustments_disclaimer_counterexample :
    (get_safe_recommendations false (fun _ _ => 0) [] [] [] 5
      ["fried".data]).dynamic_adjustments
      = some (DynamicAdjustments.mk HIGH_INTENSITY_KEYWORDS [friedReason]
          ragDisclaimer)
    ∧ ragDisclaimer ≠ BR001_DISCLAIMER := by
  exact ⟨by decide, by decide⟩

theorem validator_processed_counterexample :
    validate_recommendations [sprintRec] ["processed".data] = ([sprintRec], false)
    ∧ recNameHighIntensity sprintRec = true
    ∧ "processed".data ∈ riskVocab := by decide

/-- C2 (second-pass validator replacement), corrected: when one of the
triggering tags `fried`, `high_oil`, `high_sugar` is active, every
recommendation whose lowercased name contains a high-intensity keyword is
replaced by the fixed fallback (name "Brisk Walking") and the adjusted flag
is true exactly when some recommendation was replaced; but when none of
these three is active — in particular when the only active risk tag is
`processed` — the list is returned unchanged with adjusted = false. -/
theorem validator_replacement (recs : List Recommendation)
    (warnings : List Str) :
    (triggerTagActive warnings = true →
      ((validate_recommendations recs warnings).1
          = recs.map (replaceIfViolates warnings)
        ∧ (∀ rec, recNameHighIntensity rec = true →
            replaceIfViolates warnings rec = fallbackRecommendation)
        ∧ ((validate_recommendations recs warnings).2 = true ↔
            ∃ rec ∈ recs, recNameHighIntensity rec = true)))
    ∧ (warnings ≠ [] → triggerTagActive warnings = false →
        validate_recommendations recs warnings = (recs, false)) := by
  constructor
  · intro htrig
    have hne : warnings ≠ [] := by
      intro h
      subst h
      exact absurd htrig (by decide)
    rw [validate_eq_map_any recs warnings hne]
    refine ⟨rfl, ?_, ?_⟩
    · intro rec hrec
      unfold replaceIfViolates recViolates
      rw [hrec, htrig]
      rfl
    · constructor
      · intro h
        rcases List.any_eq_true.1 h with ⟨rec, hrec, hviol⟩
        unfold recViolates at hviol
        rw [Bool.and_eq_true] at hviol
        exact ⟨rec, hrec, hviol.1⟩
      · rintro ⟨rec, hrec, hname⟩
        refine List.any_eq_true.2 ⟨rec, hrec, ?_⟩
        unfold recViolates
        rw [hname, htrig]
        rfl
  · intro hne htrigf
    rw [validate_eq_map_any recs warnings hne]
    have hmap : recs.map (replaceIfViolates warnings) = recs := by
      have hid : ∀ rec ∈ recs, replaceIfViolates warnings rec = rec := by
        intro rec _
        unfold replaceIfViolates recViolates
        rw [htrigf]
        simp
      rw [List.map_congr_left hid, List.map_id']
    have hany : recs.any (recViolates warnings) = false := by
      cases hb : recs.any (recViolates warnings)
      · rfl
      · rcases List.any_eq_true.1 hb with ⟨rec, _, hviol⟩
        rw [recViolates, htrigf] at hviol
        simp at hviol
    rw [hmap, hany]

theorem validator_replacement_witness :
    (validate_recommendations [sprintRec] ["fried".data]).1
      = [fallbackRecommendation]
    ∧ validate_recommendations [sprintRec] ["processed".data]
      = ([sprintRec], false) := by
  constructor
  · have h := (validator_replacement [sprintRec] ["fried".data]).1 (by decide)
    rw [h.1]
    decide
  · exact (validator_replacement [sprintRec] ["processed".data]).2
      (by decide) (by decide)

theorem validate_idempotent_counterexample :
    validate_recommendations
        (validate_recommendations [sprintRec] ["fried".data]).1 ["fried".data]
      ≠ validate_recommendations [sprintRec] ["fried".data] := by decide

/-- C5 (idempotent validation), corrected: a second application of
`_validate_recommendations_against_warnings` to its own output returns the
same recommendation list with adjusted flag `false`; hence the full
(list, flag) pair equality claimed by the spec holds exactly when the first
application made no adjustment, and fails whenever it replaced something
(the first pass then reports `true`, the second `false`). -/
theorem validate_idempotent_lists (recs : List Recommendation)
    (ws : List Str) :
    validate_recommendations (validate_recommendations recs ws).1 ws
      = ((validate_recommendations recs ws).1, false)
    ∧ ((validate_recommendations recs ws).2 = false →
        validate_recommendations (validate_recommendations recs ws).1 ws
          = validate_recommendations recs ws) := by
  have main : validate_recommendations (validate_recommendations recs ws).1 ws
      = ((validate_recommendations recs ws).1, false) := by
    by_cases h : ws = []
    · subst h
      simp [validate_recommendations]
    · rw [validate_eq_map_any recs ws h]
      rw [validate_eq_map_any _ ws h]
      have h1 : ∀ x ∈ recs.map (replaceIfViolates ws),
          recViolates ws x = false := by
        intro x hx
        rcases List.mem_map.1 hx with ⟨rec, _, rfl⟩
        exact recViolates_replaceIfViolates ws rec
      have hmap : (recs.map (replaceIfViolates ws)).map (replaceIfViolates ws)
          = recs.map (replaceIfViolates ws) := by
        have hid : ∀ x ∈ recs.map (replaceIfViolates ws),
            replaceIfViolates ws x = x := by
          intro x hx
          unfold replaceIfViolates
          rw [h1 x hx]
          simp
        rw [List.map_congr_left hid, List.map_id']
      have hany : (recs.map (replaceIfViolates ws)).any (recViolates ws)
          = false := by
        cases hb : (recs.map (replaceIfViolates ws)).any (recViolates ws)
        · rfl
        · rcases List.any_eq_true.1 hb with ⟨x, hx, hv⟩
          rw [h1 x hx] at hv
          cases hv
      rw [hmap, hany]
  refine ⟨main, ?_⟩
  intro hflag
  rw [main]
  exact Prod.ext rfl hflag.symm

theorem validate_idempotent_lists_witness :
    validate_recommendations
        (validate_recommendations [walkRec] ["fried".data]).1 ["fried".data]
      = validate_recommendations [walkRec] ["fried".data] :=
  (validate_idempotent_lists [walkRec] ["fried".data]).2 (by decide)

theorem patternScan_nodup (tl : Str) : (patternScan tl).Nodup := by
  unfold patternScan
  have hsub := (List.filter_sublist
    (p := fun e => e.2.any (patternMatches tl)) VISUAL_WARNING_PATTERNS).map Prod.fst
  exact List.Nodup.sublist hsub (by decide)

theorem patternScan_mem_vocab (tl : Str) :
    ∀ w ∈ patternScan tl, w ∈ riskVocab := by
  intro w hw
  unfold patternScan at hw
  rcases List.mem_map.1 hw with ⟨e, he, rfl⟩
  have he2 : e ∈ VISUAL_WARNING_PATTERNS := List.mem_of_mem_filter he
  have hmap : VISUAL_WARNING_PATTERNS.map Prod.fst = riskVocab := by decide
  rw [← hmap]
  exact List.mem_map.2 ⟨e, he2, rfl⟩

/-- C8 (extractor robustness): `_extract_visual_warnings_from_task` is a
total function of the input string whose result is duplicate-free, drawn
only from the closed vocabulary of the four risk tags, invariant under
lower-casing the input (case-insensitive detection), empty on the empty
input, and equal as a set to the union of the pattern-scan findings and the
structured-list findings. -/
theorem extractor_robust (s : Str) :
    (extract_visual_warnings s).Nodup
    ∧ (∀ w ∈ extract_visual_warnings s, w ∈ riskVocab)
    ∧ extract_visual_warnings (lowerStr s) = extract_visual_warnings s
    ∧ extract_visual_warnings ([] : Str) = []
    ∧ (∀ w, w ∈ extract_visual_warnings s ↔
        (w ∈ patternScan (lowerStr s) ∨ w ∈ structuredTags (lowerStr s))) := by
  refine ⟨?_, ?_, ?_, by decide, ?_⟩
  · cases hj : findJsonGroup (lowerStr s) with
    | none =>
        simp only [extract_visual_warnings, hj]
        exact patternScan_nodup _
    | some grp =>
        simp only [extract_visual_warnings, hj]
        exact nodup_dedupAppendFiltered _ riskVocab _ (patternScan_nodup _)
  · intro w hw
    cases hj : findJsonGroup (lowerStr s) with
    | none =>
        simp only [extract_visual_warnings, hj] at hw
        exact patternScan_mem_vocab _ w hw
    | some grp =>
        simp only [extract_visual_warnings, hj] at hw
        rcases (mem_dedupAppendFiltered _ w riskVocab _).1 hw with h | ⟨h, _⟩
        · exact patternScan_mem_vocab _ w h
        · exact h
  · simp only [extract_visual_warnings, lowerStr_idem]
  · intro w
    cases hj : findJsonGroup (lowerStr s) with
    | none =>
        simp only [extract_visual_warnings, hj, structuredTags]
        constructor
        · exact Or.inl
        · rintro (h | h)
          · exact h
          · cases h
    | some grp =>
        simp only [extract_visual_warnings, hj, structuredTags]
        rw [mem_dedupAppendFiltered]
        constructor
        · rintro (h | ⟨h1, h2⟩)
          · exact Or.inl h
          · exact Or.inr (List.mem_filter.2 ⟨h1, h2⟩)
        · rintro (h | h)
          · exact Or.inl h
          · exact Or.inr ⟨(List.mem_filter.1 h).1, (List.mem_filter.1 h).2⟩

theorem extractor_robust_witness :
    "fried".data ∈ extract_visual_warnings "Warnings: [fried]".data
    ∧ extract_visual_warnings ([] : Str) = [] :=
  ⟨((extractor_robust "Warnings: [fried]".data).2.2.2.2 "fried".data).mpr
      (Or.inl (by decide)),
   (extractor_robust ([] : Str)).2.2.2.1⟩

end HealthButler
